import Mathlib

/-!
Verification of the metadata extraction and normalization pipeline of the
google-maps-scrape-review cloud function, against its natural-language spec.

Strings are modelled as `List Char`.  JavaScript strings are sequences of
UTF-16 code units; for every input exercised here the two representations
agree (no claim probes lone surrogates).  Regular-expression behaviour is
translated operation by operation from the source regexes, including lazy
and greedy quantifier semantics, anchoring, and the fact that `.` does not
match line terminators.
-/

/-- JavaScript line terminators, excluded by `.` in a regex without the `s` flag:
LF, CR, U+2028 and U+2029. -/
def isLineTerm (c : Char) : Bool :=
  c == '\n' || c == '\r' || c == Char.ofNat 0x2028 || c == Char.ofNat 0x2029

/-- The JavaScript whitespace class `\s` (also what `String.prototype.trim` removes):
space, tab, LF, VT, FF, CR, NBSP and the Unicode space separators. -/
def jsIsSpace (c : Char) : Bool :=
  c == ' ' || c == '\t' || c == '\n' || c == Char.ofNat 0x0B || c == Char.ofNat 0x0C ||
  c == '\r' || c == Char.ofNat 0xA0 || c == Char.ofNat 0x1680 ||
  (Char.ofNat 0x2000 ≤ c && c ≤ Char.ofNat 0x200A) ||
  c == Char.ofNat 0x2028 || c == Char.ofNat 0x2029 || c == Char.ofNat 0x202F ||
  c == Char.ofNat 0x205F || c == Char.ofNat 0x3000 || c == Char.ofNat 0xFEFF

/-- `String.prototype.trim`: drop leading and trailing whitespace. -/
def jsTrim (s : List Char) : List Char :=
  ((s.dropWhile jsIsSpace).reverse.dropWhile jsIsSpace).reverse

/-- The fixed named-entity table of `decodeHTMLEntities` (source order). -/
def entityTable : List (List Char × List Char) :=
  [ (("&amp;").toList, ("&").toList),
    (("&lt;").toList, ("<").toList),
    (("&gt;").toList, (">").toList),
    (("&quot;").toList, ("\"").toList),
    (("&#39;").toList, ("'").toList),
    (("&nbsp;").toList, (" ").toList),
    (("&apos;").toList, ("'").toList),
    (("&#x2F;").toList, ("/").toList),
    (("&#x27;").toList, ("'").toList),
    (("&#x60;").toList, ("`").toList),
    (("&ldquo;").toList, ("\"").toList),
    (("&rdquo;").toList, ("\"").toList),
    (("&rsquo;").toList, ("'").toList),
    (("&lsquo;").toList, ("'").toList),
    (("&ndash;").toList, ("–").toList),
    (("&mdash;").toList, ("—").toList) ]

/-- `entities[entity]` lookup (all table values are truthy, so the source's
truthiness test coincides with key membership). -/
def entLookup (e : List Char) : Option (List Char) :=
  List.lookup e entityTable

/-- Decimal digit string to number, as JavaScript's `Number` coercion on a
digit-only string (exact for the magnitudes exercised here). -/
def digitsToNat (ds : List Char) : Nat :=
  ds.foldl (fun n c => n * 10 + (c.toNat - ('0').toNat)) 0

/-- `String.fromCharCode(n)`: one UTF-16 code unit, `n` reduced modulo 2^16
(the ECMAScript ToUint16 conversion).  When the reduced value is a lone
surrogate JavaScript keeps it as an unpaired code unit, which `Char` cannot
represent; no input in this development lands in that range. -/
def fromCharCode (n : Nat) : Char :=
  Char.ofNat (n % 65536)

/-- The capture of `/&#(\d+);/` run on a token body: a maximal run of decimal
digits that must be terminated by a semicolon.  `some []` means the `&#` was
immediately followed by `;` (zero digits, which `\d+` rejects at the caller). -/
def digitsThenSemi : List Char → Option (List Char)
  | [] => none
  | c :: rest =>
    if c = ';' then some []
    else if c.isDigit then
      match digitsThenSemi rest with
      | some ds => some (c :: ds)
      | none => none
    else none

/-- Unanchored search of `/&#(\d+);/` inside one entity token, returning the
captured digits of the leftmost match. -/
def numericSearch : List Char → Option (List Char)
  | [] => none
  | '&' :: rest =>
    (match rest with
     | '#' :: rest2 =>
       (match digitsThenSemi rest2 with
        | some (d :: ds) => some (d :: ds)
        | _ => numericSearch rest)
     | _ => numericSearch rest)
  | _ :: rest => numericSearch rest

/-- The replacement callback of `decodeHTMLEntities`: table lookup first, then
the numeric fallback, otherwise the token is left unchanged. -/
def decodeEntity (e : List Char) : List Char :=
  match entLookup e with
  | some v => v
  | none =>
    match numericSearch e with
    | some ds => [fromCharCode (digitsToNat ds)]
    | none => e

/-- Split at the first semicolon: `some (before, after)` when one exists. -/
def splitAtSemi : List Char → Option (List Char × List Char)
  | [] => none
  | c :: rest =>
    if c = ';' then some ([], rest)
    else
      match splitAtSemi rest with
      | some (b, a) => some (c :: b, a)
      | none => none

/-- One left-to-right pass of `text.replace(/&[^;]+;/g, cb)`.  A match is an
ampersand, a non-empty semicolon-free run, then a semicolon; the replacement
is emitted and scanning resumes after the match, so replacements are never
rescanned.  The fuel argument is the length of the remaining input. -/
def entityScanAux : Nat → List Char → List Char
  | 0, s => s
  | _ + 1, [] => []
  | fuel + 1, '&' :: rest =>
    (match splitAtSemi rest with
     | some (body, after) =>
       if body = [] then '&' :: entityScanAux fuel rest
       else decodeEntity ('&' :: (body ++ [';'])) ++ entityScanAux fuel after
     | none => '&' :: entityScanAux fuel rest)
  | fuel + 1, c :: rest => c :: entityScanAux fuel rest

/-- `decodeHTMLEntities` from the source: empty input maps to the empty
string, otherwise one global replacement pass over the entity regex. -/
def decodeHTMLEntities (text : List Char) : List Char :=
  entityScanAux text.length text

/-- The token text of a numeric character reference `&#<digits>;`. -/
def numericToken (ds : List Char) : List Char :=
  '&' :: '#' :: (ds ++ [';'])

/-- The working copy of `getReviewContent`: the description with every star
glyph removed, then trimmed (`description.replace` of the star class, then
`trim`). -/
def cleanDescription (description : List Char) : List Char :=
  jsTrim (description.filter (fun c => !(c == '★' || c == '☆')))

/-- Whether a run contains no line terminator (what `.` may traverse). -/
def noLineTerm (s : List Char) : Bool :=
  s.all (fun c => !(isLineTerm c))

/-- The anchored lazy quote regex of `getReviewContent`.  It matches exactly
when the string is a double quote, then a line-terminator-free interior, then
a closing double quote at the very end (length at least two); the capture is
the interior. -/
def quoteInner (c : List Char) : Option (List Char) :=
  if c.head? = some '"' ∧ c.tail ≠ [] ∧ c.tail.getLast? = some '"' ∧
      noLineTerm c.tail.dropLast = true
  then some c.tail.dropLast else none

/-- German placeholder sentence of the source. -/
def germanPlaceholder : List Char :=
  ("Es handelt sich um eine Sterne-Bewertung ohne Begründung").toList

/-- English placeholder sentence of the source. -/
def englishPlaceholder : List Char :=
  ("This is a star rating without any review text").toList

/-- The language-conditional placeholder ternary of the source. -/
def starPlaceholder (language : List Char) : List Char :=
  if language = ("de").toList then germanPlaceholder else englishPlaceholder

/-- `getReviewContent` from the source: strip star glyphs and trim; empty
working copy falls back to the locale placeholder; a fully quote-wrapped copy
yields the trimmed interior; otherwise the copy is returned verbatim (with a
placeholder fallback mirroring the source's final `||`). -/
def getReviewContent (description language : List Char) : List Char :=
  if cleanDescription description = [] then starPlaceholder language
  else
    match quoteInner (cleanDescription description) with
    | some inner => jsTrim inner
    | none =>
      if cleanDescription description = [] then starPlaceholder language
      else cleanDescription description

/-- The rating of the handler: the number of matches of the global filled-star
regex over the (pre-strip) description. -/
def rating (description : List Char) : Nat :=
  (description.filter (fun c => c == '★')).length

/-- The spec's rating-glyph count (glossary: the filled or the empty star),
stated from the spec's words only to formalize claim C3 as written. -/
def ratingGlyphs (description : List Char) : Nat :=
  (description.filter (fun c => c == '★' || c == '☆')).length

/-- Case-insensitive literal matching at the start of the text, as the `i`
flag canonicalizes characters (ASCII-complete; the non-ASCII letters in the
German template occur only in lower case in every input exercised here). -/
def ciStarts : List Char → List Char → Bool
  | [], _ => true
  | _ :: _, [] => false
  | p :: ps, c :: cs => (p.toLower == c.toLower) && ciStarts ps cs

/-- Case-sensitive literal matching at the start of the text. -/
def csStarts : List Char → List Char → Bool
  | [], _ => true
  | _ :: _, [] => false
  | p :: ps, c :: cs => (p == c) && csStarts ps cs

/-- The greedy trailing `(.*)`: the maximal line-terminator-free run. -/
def takeLine (s : List Char) : List Char :=
  s.takeWhile (fun c => !(isLineTerm c))

/-- The lazy `(.*?)` followed by a literal: the shortest line-terminator-free
first group such that the middle literal matches case-insensitively, paired
with the greedy second group after the literal. -/
def lazySplit (m : List Char) : List Char → Option (List Char × List Char)
  | [] => if ciStarts m [] then some ([], takeLine []) else none
  | c :: rest =>
    if ciStarts m (c :: rest) then some ([], takeLine ((c :: rest).drop m.length))
    else if isLineTerm c then none
    else
      match lazySplit m rest with
      | some (g1, g2) => some (c :: g1, g2)
      | none => none

/-- Unanchored search for one title template `<prefix literal>(.*?)<middle
literal>(.*)`: the match with the leftmost start wins, as in the source's
`String.prototype.match`. -/
def searchTemplate (p m : List Char) : List Char → Option (List Char × List Char)
  | [] => if ciStarts p [] then lazySplit m [] else none
  | c :: t =>
    match (if ciStarts p (c :: t) then lazySplit m ((c :: t).drop p.length) else none) with
    | some r => some r
    | none => searchTemplate p m t

/-- German template pieces of `/Google-Rezension über (.*?) von (.*)/i`. -/
def germanTplPre : List Char := ("Google-Rezension über ").toList

def germanTplMid : List Char := (" von ").toList

/-- English template pieces of `/Google review of (.*?) by (.*)/i`. -/
def englishTplPre : List Char := ("Google review of ").toList

def englishTplMid : List Char := (" by ").toList

/-- `parseReviewTitle` from the source: the German template is tried first,
then the English one; a match yields the trimmed capture groups and no match
yields two empty strings. -/
def parseReviewTitle (title : List Char) : List Char × List Char :=
  match searchTemplate germanTplPre germanTplMid title with
  | some (b, r) => (jsTrim b, jsTrim r)
  | none =>
    match searchTemplate englishTplPre englishTplMid title with
    | some (b, r) => (jsTrim b, jsTrim r)
    | none => ([], [])

/-- The literal piece `lang="` of the document-language regex. -/
def langLit : List Char := ("lang=\"").toList

/-- The capture `([^X]*)` followed by the literal character `q`: the run up to
the first occurrence of `q`, provided `q` occurs at all. -/
def captureUpTo (q : Char) (s : List Char) : Option (List Char) :=
  if q ∈ s then some (s.takeWhile (fun c => !(c == q))) else none

/-- One attempt of `lang="([^"]*)"` at the current offset inside the tag. -/
def tryLangHere (rest : List Char) (acc : Option (List Char)) : Option (List Char) :=
  match (if csStarts langLit rest then captureUpTo '"' (rest.drop langLit.length) else none) with
  | some g => some g
  | none => acc

/-- Walk the `[^>]*` run after `<html`, keeping the last offset at which
`lang="([^"]*)"` succeeds — the greedy backtracking order of the first
quantifier prefers the rightmost occurrence inside the run. -/
def scanLangAux : List Char → Option (List Char) → Option (List Char)
  | [], acc => tryLangHere [] acc
  | c :: rest2, acc =>
    if c = '>' then tryLangHere (c :: rest2) acc
    else scanLangAux rest2 (tryLangHere (c :: rest2) acc)

/-- The literal `<html` of the document-language regex (case-sensitive: this
regex carries no `i` flag in the source). -/
def htmlLit : List Char := ("<html").toList

/-- Leftmost match of `/<html[^>]*lang="([^"]*)"/`, returning the capture. -/
def htmlLangSearch : List Char → Option (List Char)
  | [] => none
  | c :: t =>
    match (if csStarts htmlLit (c :: t) then scanLangAux ((c :: t).drop htmlLit.length) none
           else none) with
    | some g => some g
    | none => htmlLangSearch t

/-- The page language of the handler: the captured `lang` value's primary
subtag before any hyphen, defaulting to `"en"` when the regex finds no match
or the subtag is empty. -/
def pageLangOf (html : List Char) : List Char :=
  match htmlLangSearch html with
  | some g =>
    if g.takeWhile (fun c => !(c == '-')) = [] then ("en").toList
    else g.takeWhile (fun c => !(c == '-'))
  | none => ("en").toList

/-- The literal `itemprop="<value>"` inside the meta-tag regex. -/
def itempropLit (iprop : List Char) : List Char :=
  ("itemprop=\"").toList ++ iprop ++ [Char.ofNat 34]

/-- Walk the `[^>]*` run after `<meta` and return the last offset at which
the `itemprop` literal matches case-insensitively with a `>` somewhere after
it — the greedy backtracking order of `[^>]*itemprop="…"`. -/
def metaInnerAux (lit : List Char) : List Char → Nat → Option Nat → Option Nat
  | rest, k, best =>
    let best2 := if ciStarts lit rest ∧ '>' ∈ rest.drop lit.length then some k else best
    match rest with
    | [] => best2
    | c :: rest2 => if c = '>' then best2 else metaInnerAux lit rest2 (k + 1) best2

/-- Leftmost match of `new RegExp('<meta[^>]*itemprop="…"[^>]*>', 'i')`,
returning the matched tag text (the source's `match?.[0]`). -/
def metaTagSearch (lit : List Char) : List Char → Option (List Char)
  | [] => none
  | c :: t =>
    match (if ciStarts (("<meta").toList) (c :: t) then
             match metaInnerAux lit ((c :: t).drop 5) 0 none with
             | some k =>
               some ((c :: t).take
                 (5 + k + lit.length +
                   (((c :: t).drop (5 + k + lit.length)).takeWhile (fun x => !(x == '>'))).length
                   + 1))
             | none => none
           else none) with
    | some r => some r
    | none => metaTagSearch lit t

/-- Leftmost match of `/content=(['"])(.*?)\1/` over the tag text: the literal
`content=`, a quote character, then the lazy capture up to the first matching
quote on the same line. -/
def contentCapture : List Char → Option (List Char)
  | [] => none
  | c :: t =>
    match (if csStarts (("content=").toList) (c :: t) then
             match (c :: t).drop 8 with
             | [] => none
             | q :: rest2 =>
               if q == '"' || q == '\'' then
                 (if (rest2.drop (rest2.takeWhile
                       (fun x => !(x == q) && !(isLineTerm x))).length).head? = some q
                  then some (rest2.takeWhile (fun x => !(x == q) && !(isLineTerm x)))
                  else none)
               else none
           else none) with
    | some r => some r
    | none => contentCapture t

/-- `extractMetaContent` from the source: find the first matching meta tag
(case-insensitively), extract its quoted `content` attribute value, and run
the Entity Decoder on it; every miss yields the empty string. -/
def extractMetaContent (html iprop : List Char) : List Char :=
  match metaTagSearch (itempropLit iprop) html with
  | some tag =>
    match contentCapture tag with
    | some v => decodeHTMLEntities v
    | none => []
  | none => []

/-- The part_000 variant's review regex `/^[★☆]+\s*"(.*?)"$/` applied to the
raw description content: at least one star glyph, optional whitespace, then a
fully wrapped quote whose interior is captured. -/
def reviewRegexV2 (fullContent : List Char) : Option (List Char) :=
  let stars := fullContent.takeWhile (fun c => c == '★' || c == '☆')
  let rest1 := fullContent.drop stars.length
  let rest2 := rest1.drop (rest1.takeWhile jsIsSpace).length
  if stars ≠ [] ∧ rest2.head? = some '"' ∧ rest2.tail ≠ [] ∧
      rest2.tail.getLast? = some '"' ∧ noLineTerm rest2.tail.dropLast = true
  then some rest2.tail.dropLast else none

/-- The part_000 variant's review content: the captured interior run through
the Entity Decoder, or the empty string when the regex does not match. -/
def reviewContentV2 (fullContent : List Char) : List Char :=
  match reviewRegexV2 fullContent with
  | some m => decodeHTMLEntities m
  | none => []

/-- The outcome of the outbound fetch as the handler observes it: `ok` when
the promise resolves (any status code, node-fetch does not reject on non-2xx)
with the response text, `err` when fetching or reading the body rejects. -/
inductive FetchOutcome where
  | ok (status : Nat) (body : List Char)
  | err (message : List Char)

/-- The inbound request surface the handler consults. -/
structure HttpRequest where
  method : List Char
  urlParam : Option (List Char)

/-- The `data` object of a successful response. -/
structure ReviewData where
  businessName : List Char
  reviewerName : List Char
  rating : Nat
  reviewContent : List Char
  detected : List Char
  pageLang : List Char

/-- The `debugInfo` object of a successful response. -/
structure DebugInfo where
  url : List Char
  hasBusinessName : Bool
  hasReviewerName : Bool
  hasReviewContent : Bool
  statusCode : Nat
  rawName : List Char
  rawDescription : List Char

/-- The response bodies the handler can emit. -/
inductive ResponseBody where
  | empty
  | missingUrl
  | success (data : ReviewData) (debug : DebugInfo)
  | failure (message : List Char)

/-- The `googleReviewScraper` handler of `functions/index.js` over an
abstracted fetch: OPTIONS pre-flight, missing-url guard, then the try block —
a rejected fetch reaches the catch and produces a 500 failure body, while a
resolved fetch of any status flows through the extraction pipeline into a
200 success body. -/
def googleReviewScraper (req : HttpRequest) (fetchF : List Char → FetchOutcome) :
    Nat × ResponseBody :=
  if req.method = ("OPTIONS").toList then (204, ResponseBody.empty)
  else
    match req.urlParam with
    | none => (400, ResponseBody.missingUrl)
    | some url =>
      match fetchF url with
      | FetchOutcome.err msg => (500, ResponseBody.failure msg)
      | FetchOutcome.ok status html =>
        let pageLang := pageLangOf html
        let nameContent := extractMetaContent html (("name").toList)
        let description := extractMetaContent html (("description").toList)
        let parsed := parseReviewTitle nameContent
        let data : ReviewData :=
          ⟨parsed.1, parsed.2, rating description, getReviewContent description pageLang,
            pageLang, pageLang⟩
        (200, ResponseBody.success data
          ⟨url, !(data.businessName.isEmpty), !(data.reviewerName.isEmpty),
            !(data.reviewContent.isEmpty), status, nameContent, description⟩)

/-- A GET request carrying a url, used to exercise the handler concretely. -/
def req404 : HttpRequest := ⟨("GET").toList, some (("http://x").toList)⟩

/-- A fetch that resolves with status 404 and an empty body. -/
def fetch404 : List Char → FetchOutcome := fun _ => FetchOutcome.ok 404 []

/-- The data the pipeline produces from an empty body under language "en". -/
def data404 : ReviewData :=
  ⟨[], [], 0, englishPlaceholder, ("en").toList, ("en").toList⟩

/-- The debug block the handler attaches for `req404`/`fetch404`. -/
def dbg404 : DebugInfo :=
  ⟨("http://x").toList, false, false, true, 404, [], []⟩

/-- A description with an interior quotation mark on which the two source
variants disagree. -/
def divergingDescription : List Char := ("★\" a\"b \"").toList

/-- The upper-case page used to separate the case-sensitive language regex
from the case-insensitive meta regex. -/
def upperHtml : List Char :=
  ("<HTML LANG=\"de\"><META itemprop=\"name\" content=\"x\">").toList

theorem entityScanAux_nil (fuel : Nat) : entityScanAux fuel [] = [] := by
  cases fuel <;> rfl

theorem splitAtSemi_append (ds : List Char) (h : ∀ c ∈ ds, c ≠ ';') :
    splitAtSemi (ds ++ [';']) = some (ds, []) := by
  induction ds with
  | nil => rfl
  | cons c rest ih =>
    have hc : c ≠ ';' := h c (List.mem_cons_self c rest)
    have := ih (fun x hx => h x (List.mem_cons_of_mem c hx))
    simp [splitAtSemi, hc, this]

theorem digitsThenSemi_append (ds : List Char) (h : ∀ c ∈ ds, c.isDigit = true) :
    digitsThenSemi (ds ++ [';']) = some ds := by
  induction ds with
  | nil => rfl
  | cons c rest ih =>
    have hc : c.isDigit = true := h c (List.mem_cons_self c rest)
    have hne : c ≠ ';' := by
      intro e; subst e; exact absurd hc (by decide)
    have := ih (fun x hx => h x (List.mem_cons_of_mem c hx))
    simp [digitsThenSemi, hne, hc, this]

/-- Claim C5 — the Entity Decoder is single-pass: decoding the eight-character
string ampersand-a-m-p-semicolon-a-m-p-semicolon collapses only the leading
reference, yielding the text form of the ampersand entity rather than a bare
ampersand, because the replacement is not rescanned. -/
theorem decode_single_pass :
    decodeHTMLEntities (("&amp;amp;").toList) = ("&amp;").toList ∧
    decodeHTMLEntities (("&amp;amp;").toList) ≠ ("&").toList := by
  constructor
  · rfl
  · decide

/-- Claim C6, counterexample — a numeric reference above U+FFFF is decoded via
`String.fromCharCode`, which truncates the code point modulo 2^16: decoding
the numeric reference 128512 yields U+F600, not the emoji at U+1F600. -/
theorem decode_numeric_above_ffff_wrong :
    decodeHTMLEntities (("&#128512;").toList) = [Char.ofNat 62976] ∧
    decodeHTMLEntities (("&#128512;").toList) ≠ [Char.ofNat 128512] := by
  constructor
  · rfl
  · decide

/-- Claim C6, amended — for every numeric token `&#<digits>;` outside the
named-entity table, the Entity Decoder replaces it with the single UTF-16 code
unit at the code point reduced modulo 2^16 (`String.fromCharCode`); the
spec's rule therefore holds exactly for code points below 2^16, and decoding
the reference 65 yields the letter A. -/
theorem decode_numeric_mod_2_16 :
    (∀ ds : List Char, ds ≠ [] → (∀ c ∈ ds, c.isDigit = true) →
      entLookup (numericToken ds) = none →
      decodeHTMLEntities (numericToken ds) = [fromCharCode (digitsToNat ds)]) ∧
    decodeHTMLEntities (("&#65;").toList) = ("A").toList ∧
    (∀ n : Nat, n < 65536 → fromCharCode n = Char.ofNat n) := by
  refine ⟨?_, rfl, ?_⟩
  · intro ds h1 h2 h3
    obtain ⟨d, ds', rfl⟩ := List.exists_cons_of_ne_nil h1
    have hds : ∀ c ∈ d :: ds', c ≠ ';' := by
      intro c hc e
      subst e
      exact absurd (h2 _ hc) (by decide)
    have hdne : d ≠ ';' := hds d (List.mem_cons_self d ds')
    have htail : ∀ c ∈ ds', c ≠ ';' := fun c hc => hds c (List.mem_cons_of_mem d hc)
    have hinner : splitAtSemi (ds' ++ [';']) = some (ds', []) :=
      splitAtSemi_append ds' htail
    have hsplit : splitAtSemi ('#' :: ((d :: ds') ++ [';'])) =
        some ('#' :: (d :: ds'), []) := by
      simp [splitAtSemi, hdne, hinner]
    have hdig : digitsThenSemi (d :: (ds' ++ [';'])) = some (d :: ds') := by
      have := digitsThenSemi_append (d :: ds') h2
      simpa using this
    have hnum : numericSearch (numericToken (d :: ds')) = some (d :: ds') := by
      simp [numericToken, numericSearch, hdig]
    have hlen : (numericToken (d :: ds')).length = ds'.length + 4 := by
      simp [numericToken]
    rw [decodeHTMLEntities, hlen]
    show entityScanAux (ds'.length + 3 + 1) ('&' :: ('#' :: ((d :: ds') ++ [';']))) = _
    rw [entityScanAux, hsplit]
    simp only [reduceIte]
    rw [entityScanAux_nil]
    have htok : ('&' :: (('#' :: (d :: ds')) ++ [';'])) = numericToken (d :: ds') := by
      simp [numericToken]
    rw [htok]
    simp [decodeEntity, h3, hnum]
  · intro n hn
    simp [fromCharCode, Nat.mod_eq_of_lt hn]

/-- Claim C6, witness for the amended statement at the concrete reference 65. -/
theorem decode_numeric_witness :
    decodeHTMLEntities (numericToken (("65").toList)) =
      [fromCharCode (digitsToNat (("65").toList))] :=
  decode_numeric_mod_2_16.1 _ (by decide) (by decide) (by decide)

theorem getLast?_cons_ne (a : Char) (l : List Char) (h : l ≠ []) :
    (a :: l).getLast? = l.getLast? := by
  cases l with
  | nil => exact absurd rfl h
  | cons b t => simp [List.getLast?_cons_cons]

/-- Claim C3, counterexample — the rating counts only the filled star: on a
description consisting of one empty star the code yields 0, not the
spec's glyph count of 1. -/
theorem rating_ignores_empty_star :
    rating (("☆").toList) ≠ ratingGlyphs (("☆").toList) := by decide

/-- Claim C3, amended — the rating is the count of the filled star character
in the original (pre-strip) description; it is a natural number and is 0
whenever no filled star occurs (empty stars are stripped but not counted). -/
theorem rating_counts_filled_stars (description : List Char) :
    rating description = description.count '★' ∧
    ('★' ∉ description → rating description = 0) := by
  have hc : rating description = description.count '★' := by
    rw [rating, List.count, List.countP_eq_length_filter]
  refine ⟨hc, fun hnot => ?_⟩
  rw [hc]
  exact List.count_eq_zero.mpr hnot

/-- Claim C3, witness for the hypothesis-bearing part of the amended claim. -/
theorem rating_counts_filled_stars_witness :
    rating (("☆☆").toList) = 0 :=
  (rating_counts_filled_stars (("☆☆").toList)).2 (by decide)

/-- Claim C4 — on the stripped, trimmed copy the quoted-extraction branch
fires only when a double quote is both the first and the last character of
the entire string, and then the result is the inner text trimmed; a copy that
starts with a double quote without a closing quote at the end skips the
quoted branch and is returned verbatim. -/
theorem quote_branch_requires_wrapping_quotes (d l : List Char) :
    (∀ inner, quoteInner (cleanDescription d) = some inner →
      (cleanDescription d).head? = some '"' ∧
      (cleanDescription d).getLast? = some '"' ∧
      getReviewContent d l = jsTrim inner) ∧
    (∀ rest, cleanDescription d = '"' :: rest → rest.getLast? ≠ some '"' →
      quoteInner (cleanDescription d) = none ∧
      getReviewContent d l = cleanDescription d) := by
  constructor
  · intro inner hq
    have hsome := hq
    simp only [quoteInner] at hsome
    by_cases hcond : (cleanDescription d).head? = some '"' ∧ (cleanDescription d).tail ≠ [] ∧
        (cleanDescription d).tail.getLast? = some '"' ∧
        noLineTerm (cleanDescription d).tail.dropLast = true
    · obtain ⟨h1, h2, h3, _⟩ := hcond
      have hne : cleanDescription d ≠ [] := by
        intro e
        rw [e] at h1
        simp at h1
      refine ⟨h1, ?_, ?_⟩
      · cases hc : cleanDescription d with
        | nil => exact absurd hc hne
        | cons a t =>
          rw [hc] at h2 h3
          simp only [List.tail_cons] at h2 h3
          rw [getLast?_cons_ne a t h2]
          exact h3
      · simp [getReviewContent, hne, hq]
    · rw [if_neg hcond] at hsome
      exact absurd hsome (by simp)
  · intro rest hc hlast
    have hcond : ¬ ((cleanDescription d).head? = some '"' ∧ (cleanDescription d).tail ≠ [] ∧
        (cleanDescription d).tail.getLast? = some '"' ∧
        noLineTerm (cleanDescription d).tail.dropLast = true) := by
      rw [hc]
      simp only [List.head?_cons, List.tail_cons]
      intro hcontra
      exact hlast hcontra.2.2.1
    have hqnone : quoteInner (cleanDescription d) = none := by
      simp only [quoteInner]
      rw [if_neg hcond]
    have hne : cleanDescription d ≠ [] := by rw [hc]; simp
    refine ⟨hqnone, ?_⟩
    simp [getReviewContent, hne, hqnone]

/-- Claim C4, witness: a fully quote-wrapped copy takes the quoted branch. -/
theorem quote_branch_witness :
    getReviewContent (("\"hi\"").toList) (("en").toList) = jsTrim (("hi").toList) :=
  ((quote_branch_requires_wrapping_quotes (("\"hi\"").toList) (("en").toList)).1
    (("hi").toList) (by decide)).2.2

/-- Claim C1, counterexample — the Content Normalizer is not always non-empty:
on the two-character description made of two double quotes the quoted branch
captures an empty interior and returns the empty string. -/
theorem reviewContent_empty_on_double_quote :
    ¬ (∀ description language : List Char, getReviewContent description language ≠ []) :=
  fun h => h (("\"\"").toList) (("en").toList) (by decide)

/-- Claim C1, amended — the Content Normalizer returns a non-empty string in
every case except when the stripped, trimmed copy is wrapped in double quotes
around an interior that trims to nothing, in which case the quoted branch
returns the empty string. -/
theorem reviewContent_nonempty_unless_blank_quote (description language : List Char)
    (h : ∀ inner, quoteInner (cleanDescription description) = some inner →
      jsTrim inner ≠ []) :
    getReviewContent description language ≠ [] := by
  simp only [getReviewContent]
  by_cases hne : cleanDescription description = []
  · rw [if_pos hne]
    simp only [starPlaceholder]
    by_cases hl : language = ("de").toList
    · rw [if_pos hl]; decide
    · rw [if_neg hl]; decide
  · rw [if_neg hne]
    cases hq : quoteInner (cleanDescription description) with
    | some inner =>
      simp only [hq]
      exact h inner hq
    | none =>
      simp only [hq]
      rw [if_neg hne]
      exact hne

/-- Claim C1, witness: an ordinary description yields non-empty content. -/
theorem reviewContent_nonempty_witness :
    getReviewContent (("hi").toList) (("en").toList) ≠ [] :=
  reviewContent_nonempty_unless_blank_quote _ _ (fun _ hq => nomatch hq)

/-- Claim C8 — an empty working copy yields the German placeholder exactly for
language "de" and the English placeholder for every other language code; in
particular two filled stars under "de" give the German sentence, and three
filled stars under "en" give rating 3 and the English sentence. -/
theorem placeholder_by_language :
    (∀ description language : List Char, cleanDescription description = [] →
      getReviewContent description language =
        (if language = ("de").toList then germanPlaceholder else englishPlaceholder)) ∧
    getReviewContent (("★★").toList) (("de").toList) = germanPlaceholder ∧
    rating (("★★★").toList) = 3 ∧
    getReviewContent (("★★★").toList) (("en").toList) = englishPlaceholder := by
  refine ⟨?_, by decide, by decide, by decide⟩
  intro d lang hempty
  simp [getReviewContent, hempty, starPlaceholder]

/-- Claim C8, witness: a language other than "de" falls back to English. -/
theorem placeholder_by_language_witness :
    cleanDescription (("★").toList) = [] ∧
    getReviewContent (("★").toList) (("fr").toList) = englishPlaceholder := by
  refine ⟨by decide, ?_⟩
  have h := placeholder_by_language.1 (("★").toList) (("fr").toList) (by decide)
  rw [h]
  decide

/-- Claim C7 — the Title Parser tries the locale templates in order,
case-insensitively; the first match yields the trimmed business and reviewer
substrings; the documented English example parses as expected; and an input
matching no template yields two empty strings rather than an error. -/
theorem parseReviewTitle_templates :
    (∀ t b r, searchTemplate germanTplPre germanTplMid t = some (b, r) →
      parseReviewTitle t = (jsTrim b, jsTrim r)) ∧
    (∀ t b r, searchTemplate germanTplPre germanTplMid t = none →
      searchTemplate englishTplPre englishTplMid t = some (b, r) →
      parseReviewTitle t = (jsTrim b, jsTrim r)) ∧
    (∀ t, searchTemplate germanTplPre germanTplMid t = none →
      searchTemplate englishTplPre englishTplMid t = none →
      parseReviewTitle t = ([], [])) ∧
    parseReviewTitle (("Google review of Joe's Pizza by Jane Doe").toList) =
      ((("Joe's Pizza").toList), (("Jane Doe").toList)) ∧
    parseReviewTitle (("GOOGLE REVIEW OF  Acme Ltd  BY  Bob ").toList) =
      ((("Acme Ltd").toList), (("Bob").toList)) := by
  refine ⟨?_, ?_, ?_, by decide, by decide⟩
  · intro t b r h
    simp [parseReviewTitle, h]
  · intro t b r h1 h2
    simp [parseReviewTitle, h1, h2]
  · intro t h1 h2
    simp [parseReviewTitle, h1, h2]

/-- Claim C7, witness: an input matching neither template yields empty fields. -/
theorem parseReviewTitle_templates_witness :
    parseReviewTitle (("hello world").toList) = ([], []) :=
  parseReviewTitle_templates.2.2.1 (("hello world").toList) (by decide) (by decide)

/-- Claim C2, counterexample — a fetch that resolves with the non-2xx status
404 is not routed to the error path: the handler still answers 200 with a
success body, merely reporting the upstream status inside `debugInfo`. -/
theorem non2xx_fetch_yields_success200 :
    googleReviewScraper req404 fetch404 = (200, ResponseBody.success data404 dbg404) ∧
    ¬ (200 ≤ 404 ∧ 404 ≤ 299) := by
  constructor
  · rfl
  · decide

/-- Claim C2, amended — only a rejected fetch (network failure, timeout, or a
failing body read) reaches the catch block: for every such rejection the
handler answers 500 with the failure body carrying the underlying message; a
fetch that resolves with a non-2xx status instead proceeds to a 200 success
response. -/
theorem fetch_error_yields_500 (req : HttpRequest) (fetchF : List Char → FetchOutcome)
    (url msg : List Char) (h1 : req.method ≠ ("OPTIONS").toList)
    (h2 : req.urlParam = some url) (h3 : fetchF url = FetchOutcome.err msg) :
    googleReviewScraper req fetchF = (500, ResponseBody.failure msg) := by
  have h1s : ¬ req.method = ['O', 'P', 'T', 'I', 'O', 'N', 'S'] := by simpa using h1
  simp [googleReviewScraper, h1s, h2, h3]

/-- Claim C2, witness: a concrete rejected fetch produces the 500 failure. -/
theorem fetch_error_yields_500_witness :
    googleReviewScraper ⟨("GET").toList, some (("http://x").toList)⟩
      (fun _ => FetchOutcome.err (("boom").toList)) =
      (500, ResponseBody.failure (("boom").toList)) :=
  fetch_error_yields_500 _ _ (("http://x").toList) (("boom").toList)
    (by decide) rfl rfl

/-- Claim C9 — the two observed content-normalization variants are not
equivalent: on a description containing an interior quotation mark the
index.js normalizer (strip-then-anchored-quote with verbatim fallback) and
the part_000 normalizer (star-prefixed quote regex with empty fallback)
produce different review content. -/
theorem variants_differ_on_internal_quotes :
    getReviewContent divergingDescription (("en").toList) ≠
      reviewContentV2 divergingDescription ∧
    '"' ∈ divergingDescription.tail.dropLast := by
  constructor
  · decide
  · decide

/-- Claim C10 — the document-language regex is case-sensitive while the
meta-tag regex is not: when no lowercase `<html … lang="…"` occurs the page
language defaults to "en"; on a page whose html tag and lang attribute are
upper case the language match fails and "en" is used even though the
upper-case meta tag still yields its content; the same markup in lower case
does match. -/
theorem lang_regex_case_sensitive :
    (∀ html, htmlLangSearch html = none → pageLangOf html = ("en").toList) ∧
    htmlLangSearch upperHtml = none ∧
    pageLangOf upperHtml = ("en").toList ∧
    extractMetaContent upperHtml (("name").toList) = ("x").toList ∧
    htmlLangSearch (("<html lang=\"de\">").toList) = some (("de").toList) := by
  refine ⟨?_, by decide, by decide, by decide, by decide⟩
  intro html h
  simp [pageLangOf, h]

/-- Claim C10, witness: the empty page has no language match and defaults. -/
theorem lang_regex_case_sensitive_witness :
    pageLangOf [] = ("en").toList :=
  lang_regex_case_sensitive.1 [] rfl
